import Mathlib

/-!
Verification of the rss-newsletter generator.

This file gives a shallow embedding, in Lean 4, of the deduplication-and-
selection pipeline of the rss-newsletter repository and proves (or refutes)
the specification's claims about it.

Embedding conventions:
* JavaScript `Date` values are embedded as their epoch-millisecond value,
  an `Int` (`Date.prototype.getTime`).  The SQLite store compares ISO-8601
  timestamp strings of a fixed format lexicographically, which agrees with
  the numeric time order, so timestamps in rows are embedded as `Int` too.
* `Array.prototype.sort` (stable since ES2019) with the comparator
  `(a, b) => b.pubDate.getTime() - a.pubDate.getTime()` is embedded as the
  stable `List.mergeSort` with the Boolean relation "a may precede b iff
  b.pubDate <= a.pubDate".
* A JavaScript `Set<string>` used only through `has` is embedded as a
  `List String` used through `contains`.
* Fallible effects (the network fetch + parse, and each database or file
  write that can throw) are embedded as explicit outcome parameters; the
  `try`/`catch` of `main` becomes a case split on those outcomes.
-/

namespace RssNewsletter

/-- One syndicated entry (`FeedItem` in src/types.ts).  `pubDate` is the
epoch-millisecond value of the JavaScript `Date`. -/
structure FeedItem where
  id : String
  title : String
  link : String
  description : String
  pubDate : Int
  feedName : String
  category : String
  author : Option String
  deriving DecidableEq

/-- One configured feed source (`FeedConfig` in src/types.ts). -/
structure FeedConfig where
  name : String
  url : String
  category : String
  enabled : Bool
  deriving DecidableEq

/-- Per-source result of one fetch attempt (`FetchResult` in src/types.ts). -/
structure FetchResult where
  feedName : String
  success : Bool
  items : List FeedItem
  error : Option String
  deriving DecidableEq

/-- Per-run totals (`GenerationStats` in src/types.ts, without the
`generatedAt` wall-clock field). -/
structure GenerationStats where
  totalFeeds : Nat
  successfulFeeds : Nat
  failedFeeds : Nat
  newItems : Nat
  duplicatesRemoved : Nat
  deriving DecidableEq

/-- The comparator `(a, b) => new Date(b.pubDate).getTime() - new
Date(a.pubDate).getTime()` passed to `Array.prototype.sort` in
src/index.ts line 79 and src/feedFetcher.ts line 117: item `a` may be
placed no later than item `b` exactly when `b.pubDate <= a.pubDate`
(descending by publication time). -/
def pubDateDesc (a b : FeedItem) : Bool :=
  decide (b.pubDate ≤ a.pubDate)

/-- Stable sort by publication time, most recent first, embedding
`items.sort((a, b) => b.pubDate - a.pubDate)`. -/
def sortByDateDesc (items : List FeedItem) : List FeedItem :=
  items.mergeSort pubDateDesc

/-- Dedup filter of src/index.ts line 70:
`allItems.filter(item => !processedUrls.has(item.link))`. -/
def selectionNewItems (allItems : List FeedItem) (processedUrls : List String) :
    List FeedItem :=
  allItems.filter (fun item => !(processedUrls.contains item.link))

/-- Lines 78-80 of src/index.ts: sort the dedup survivors by date descending
and truncate to `maxTotalItems`. -/
def selectionFinalItems (allItems : List FeedItem) (processedUrls : List String)
    (maxTotalItems : Nat) : List FeedItem :=
  (sortByDateDesc (selectionNewItems allItems processedUrls)).take maxTotalItems

/-- Lines 102-109 of src/index.ts (also the argument of `recordGeneration`
at lines 126-132): the run statistics.  Note that the `newItems` field is
`sortedItems.length`, the length of the post-truncation list. -/
def mainStats (results : List FetchResult) (allItems : List FeedItem)
    (processedUrls : List String) (maxTotalItems : Nat) : GenerationStats :=
  let newItems := selectionNewItems allItems processedUrls
  let sortedItems := selectionFinalItems allItems processedUrls maxTotalItems
  { totalFeeds := results.length
    successfulFeeds := (results.filter (fun r => r.success)).length
    failedFeeds := (results.filter (fun r => !r.success)).length
    newItems := sortedItems.length
    duplicatesRemoved := allItems.length - newItems.length }

/-- One row of the `processed_items` table of src/database.ts (the spec's
SeenRecord): `url` is the primary key, `processed_at` the spec's
`firstSeenAt`. -/
structure ProcessedRow where
  url : String
  feed_name : String
  processed_at : Int
  title : Option String
  deriving DecidableEq

/-- JavaScript `x || null` on an optional string: an absent or empty string
is stored as NULL. -/
def jsOrNull (o : Option String) : Option String :=
  match o with
  | some s => if s = "" then none else some s
  | none => none

/-- Existence of a row with the given primary key. -/
def hasUrl (rows : List ProcessedRow) (u : String) : Bool :=
  rows.any (fun r => r.url == u)

/-- One `INSERT OR IGNORE INTO processed_items` statement (src/database.ts
lines 85-88): with `url` as PRIMARY KEY, the row is appended unless a row
with the same url already exists, in which case nothing happens. -/
def insertOrIgnore (rows : List ProcessedRow) (r : ProcessedRow) : List ProcessedRow :=
  if hasUrl rows r.url then rows else rows ++ [r]

/-- The per-item payload passed to `markMultipleAsProcessed`. -/
structure ItemToMark where
  url : String
  feedName : String
  title : Option String
  deriving DecidableEq

/-- DatabaseManager.markMultipleAsProcessed (src/database.ts lines 84-98):
a transaction running one `INSERT OR IGNORE` per item, all with the same
`now` timestamp. -/
def markMultipleAsProcessed (rows : List ProcessedRow) (nowMs : Int)
    (items : List ItemToMark) : List ProcessedRow :=
  items.foldl
    (fun acc item =>
      insertOrIgnore acc
        { url := item.url, feed_name := item.feedName, processed_at := nowMs,
          title := jsOrNull item.title })
    rows

/-- DatabaseManager.getProcessedUrls: the set of all stored urls (used only
through membership). -/
def getProcessedUrls (rows : List ProcessedRow) : List String :=
  rows.map (fun r => r.url)

def msPerDay : Int := 86400000

/-- The cutoff computed by `cleanOldEntries`: `cutoffDate = new Date();
cutoffDate.setDate(cutoffDate.getDate() - retentionDays)` — embedded as
`retentionDays` whole days before `nowMs`. -/
def evictionCutoff (nowMs retentionDays : Int) : Int :=
  nowMs - retentionDays * msPerDay

/-- The `WHERE processed_at < ?` predicate of the DELETE statement. -/
def oldRow (cutoffMs : Int) (r : ProcessedRow) : Bool :=
  decide (r.processed_at < cutoffMs)

/-- DatabaseManager.cleanOldEntries (src/database.ts lines 112-127): delete
every row whose `processed_at` precedes the cutoff; return the remaining
table together with `result.changes`, the number of deleted rows. -/
def cleanOldEntries (rows : List ProcessedRow) (cutoffMs : Int) :
    List ProcessedRow × Nat :=
  (rows.filter (fun r => !(oldRow cutoffMs r)), (rows.filter (oldRow cutoffMs)).length)

/-- The PRIMARY KEY invariant of the `processed_items` table: at most one
row per url. -/
def UrlsNodup (rows : List ProcessedRow) : Prop :=
  (rows.map (fun r => r.url)).Nodup

/-- One entry of a parsed feed, as delivered by the `rss-parser` library
(only the fields src/feedFetcher.ts reads). `pubDate` is the raw date
string of the feed. -/
structure RawItem where
  guid : Option String
  link : Option String
  title : Option String
  contentSnippet : Option String
  content : Option String
  summary : Option String
  pubDate : Option String
  creator : Option String
  author : Option String
  deriving DecidableEq

/-- A parsed feed as delivered by `rss-parser`. -/
structure RawFeed where
  title : Option String
  items : List RawItem
  deriving DecidableEq

/-- External collaborators used inside `fetchFeed`, abstracted as function
parameters: the md5 hex digest of the crypto library, the date parser of
the JavaScript `Date` constructor, the regex-based `sanitizeHtml`
string transformation, and the clock (`new Date()` as epoch ms). -/
structure FetchEnv where
  md5hex : String → String
  parseDate : String → Int
  sanitize : String → String
  nowMs : Int

/-- JavaScript `a || b` on optional strings: the empty string is falsy. -/
def jsOr (a b : Option String) : Option String :=
  match a with
  | some s => if s = "" then b else some s
  | none => b

/-- Template interpolation of a possibly-undefined string. -/
def tmpl (o : Option String) : String :=
  o.getD "undefined"

/-- FeedFetcher.generateItemId: md5 of the guid, else the link, else a
name-title-date template string. -/
def generateItemId (env : FetchEnv) (item : RawItem) (feedName : String) : String :=
  env.md5hex
    (match jsOr item.guid item.link with
     | some s => s
     | none => feedName ++ "-" ++ tmpl item.title ++ "-" ++ tmpl item.pubDate)

/-- FeedFetcher.sanitizeHtml applied to a possibly-undefined argument:
`if (!html) return ''` short-circuits absent and empty input, otherwise
the regex pipeline (abstracted in `FetchEnv.sanitize`) runs. -/
def sanitizeOpt (env : FetchEnv) (o : Option String) : String :=
  match jsOr o none with
  | some s => env.sanitize s
  | none => ""

/-- The loop body of `fetchFeed` (src/feedFetcher.ts lines 62-77): items
without a link are skipped, all other fields are normalized with their
documented defaults. -/
def buildFeedItem (env : FetchEnv) (name category : String)
    (feedTitle : Option String) (item : RawItem) : Option FeedItem :=
  match jsOr item.link none with
  | none => none
  | some l =>
      some
        { id := generateItemId env item name
          title := (jsOr item.title none).getD "Untitled"
          link := l
          description := sanitizeOpt env (jsOr item.contentSnippet (jsOr item.content item.summary))
          pubDate :=
            match jsOr item.pubDate none with
            | some s => env.parseDate s
            | none => env.nowMs
          feedName := name
          category := category
          author := jsOr item.creator (jsOr item.author feedTitle) }

/-- FeedFetcher.fetchFeed (src/feedFetcher.ts lines 53-97).  The whole body
is wrapped in `try`/`catch`; the only fallible step is
`this.parser.parseURL(url)` (network, parse, timeout), embedded as the
`outcome` parameter.  A caught error of message `msg` yields the failure
result; a parsed feed yields the normalized item list. -/
def fetchFeed (env : FetchEnv) (cfg : FeedConfig) (outcome : Except String RawFeed) :
    FetchResult :=
  match outcome with
  | Except.ok feed =>
      { feedName := cfg.name, success := true,
        items := feed.items.filterMap (buildFeedItem env cfg.name cfg.category feed.title),
        error := none }
  | Except.error msg =>
      { feedName := cfg.name, success := false, items := [], error := some msg }

/-- Lines 116-118 of src/feedFetcher.ts: sort one successful feed's current
items by date descending (stable) and keep only the first
`maxItemsPerFeed`. -/
def capFeedItems (items : List FeedItem) (maxItemsPerFeed : Nat) : List FeedItem :=
  (sortByDateDesc items).take maxItemsPerFeed

/-- FeedFetcher.fetchAllFeeds (src/feedFetcher.ts lines 99-128): fetch each
enabled feed sequentially (the per-feed fetch is the `fetch` parameter);
successful results contribute their capped item list to `allItems` in
order. -/
def fetchAllFeeds (fetch : FeedConfig → FetchResult) (feeds : List FeedConfig)
    (maxItemsPerFeed : Nat) : List FetchResult × List FeedItem :=
  let enabledFeeds := feeds.filter (fun f => f.enabled)
  let results := enabledFeeds.map fetch
  let allItems := results.foldl
    (fun acc r => if r.success then acc ++ capFeedItems r.items maxItemsPerFeed else acc)
    []
  (results, allItems)

/-- One row of the `feed_stats` table (src/database.ts lines 129-148). -/
structure FeedStatRow where
  feed_name : String
  items_fetched : Nat
  items_new : Nat
  success : Bool
  error_message : Option String
  deriving DecidableEq

/-- The rows written by the `recordFeedStats` loop of src/index.ts lines
85-94. -/
def feedStatRows (results : List FetchResult) (newItems : List FeedItem) :
    List FeedStatRow :=
  results.map (fun result =>
    { feed_name := result.feedName
      items_fetched := result.items.length
      items_new := (newItems.filter (fun i => i.feedName == result.feedName)).length
      success := result.success
      error_message := jsOrNull result.error })

/-- Which write of the `recordFeedStats` loop throws, if any: an intended
failure index at or past the end of the loop never fires. -/
def statsFailIndex (failAt : Option Nat) (n : Nat) : Option Nat :=
  match failAt with
  | some i => if i < n then some i else none
  | none => none

/-- The inputs and effect outcomes of one invocation of `main`
(src/index.ts lines 24-148).  Each Boolean records whether the
corresponding fallible effect succeeds or throws. -/
structure MainEnv where
  configOk : Bool
  feeds : List FeedConfig
  maxItemsPerFeed : Nat
  maxTotalItems : Nat
  retentionDays : Int
  dbOpenOk : Bool
  db0 : List ProcessedRow
  nowMs : Int
  fetch : FeedConfig → FetchResult
  feedStatsFailAt : Option Nat
  renderOk : Bool
  markOk : Bool
  genStatsOk : Bool

/-- What one invocation of `main` leaves behind: the process exit code,
whether `writeNewsletter` completed, the final `processed_items` table, the
`feed_stats` rows written, and the `generation_history` record written. -/
structure MainResult where
  exitCode : Nat
  rendered : Bool
  db : List ProcessedRow
  feedStats : List FeedStatRow
  generationRecorded : Option GenerationStats
  deriving DecidableEq

/-- The `main` function of src/index.ts.  Every step runs inside one
`try`/`catch`: the first throwing effect jumps to the catch block, which
logs and calls `process.exit(1)`; a throw-free run exits 0.  The
`recordFeedStats` loop (lines 85-94) runs before `writeNewsletter` (line
111), which runs before `markMultipleAsProcessed` (lines 114-123) and
`recordGeneration` (lines 126-132). -/
def mainRun (env : MainEnv) : MainResult :=
  if !env.configOk then
    { exitCode := 1, rendered := false, db := env.db0, feedStats := [],
      generationRecorded := none }
  else if !env.dbOpenOk then
    { exitCode := 1, rendered := false, db := env.db0, feedStats := [],
      generationRecorded := none }
  else
    let db1 := (cleanOldEntries env.db0 (evictionCutoff env.nowMs env.retentionDays)).1
    let processedUrls := getProcessedUrls db1
    let fetched := fetchAllFeeds env.fetch env.feeds env.maxItemsPerFeed
    let results := fetched.1
    let allItems := fetched.2
    let newItems := selectionNewItems allItems processedUrls
    let sortedItems := selectionFinalItems allItems processedUrls env.maxTotalItems
    let stats := feedStatRows results newItems
    match statsFailIndex env.feedStatsFailAt stats.length with
    | some i =>
        { exitCode := 1, rendered := false, db := db1, feedStats := stats.take i,
          generationRecorded := none }
    | none =>
        if !env.renderOk then
          { exitCode := 1, rendered := false, db := db1, feedStats := stats,
            generationRecorded := none }
        else if !env.markOk then
          { exitCode := 1, rendered := true, db := db1, feedStats := stats,
            generationRecorded := none }
        else
          let db2 :=
            if sortedItems.length > 0 then
              markMultipleAsProcessed db1 env.nowMs
                (sortedItems.map (fun item =>
                  { url := item.link, feedName := item.feedName,
                    title := some item.title }))
            else db1
          if !env.genStatsOk then
            { exitCode := 1, rendered := true, db := db2, feedStats := stats,
              generationRecorded := none }
          else
            { exitCode := 0, rendered := true, db := db2, feedStats := stats,
              generationRecorded :=
                some (mainStats results allItems processedUrls env.maxTotalItems) }

/-- The seen set visible to a subsequent run, after the current run marked
its final (post-truncation) items as processed. -/
def seenAfterRun (allItems : List FeedItem) (processedUrls : List String)
    (cap : Nat) : List String :=
  processedUrls ++ (selectionFinalItems allItems processedUrls cap).map (fun item => item.link)

/-- The double-quote character, written by code point to keep it out of
string-literal position. -/
def dquoteChar : Char := Char.ofNat 34

/-- The single-quote character, written by code point. -/
def squoteChar : Char := Char.ofNat 39

/-- Replacement of every occurrence of the single character `c` by the
character sequence `rep` — one `.replace(/c/g, rep)` step of
`NewsletterGenerator.escapeHtml`. -/
def replaceChar (c : Char) (rep : List Char) : List Char → List Char
  | [] => []
  | x :: xs => (if x = c then rep else [x]) ++ replaceChar c rep xs

def ampEntity : List Char := ['&', 'a', 'm', 'p', ';']

def ltEntity : List Char := ['&', 'l', 't', ';']

def gtEntity : List Char := ['&', 'g', 't', ';']

def quotEntity : List Char := ['&', 'q', 'u', 'o', 't', ';']

def aposEntity : List Char := ['&', '#', '0', '3', '9', ';']

/-- NewsletterGenerator.escapeHtml on the character list of the input: the
five global replacements in source order — ampersand first, then the angle
brackets, then the two quote characters. -/
def escapeHtmlData (s : List Char) : List Char :=
  replaceChar squoteChar aposEntity
    (replaceChar dquoteChar quotEntity
      (replaceChar '>' gtEntity
        (replaceChar '<' ltEntity
          (replaceChar '&' ampEntity s))))

/-- NewsletterGenerator.escapeHtml (part_001 lines 35-42). -/
def escapeHtml (s : String) : String :=
  String.mk (escapeHtmlData s.data)

/-- A concrete item used in counterexamples and witnesses. -/
def itemA : FeedItem :=
  { id := "id-a", title := "Alpha", link := "https://example.com/a",
    description := "", pubDate := 2000, feedName := "Feed A",
    category := "Tech News", author := none }

/-- A concrete item older than `itemA`, from the same source. -/
def itemB : FeedItem :=
  { id := "id-b", title := "Beta", link := "https://example.com/b",
    description := "", pubDate := 1000, feedName := "Feed A",
    category := "Tech News", author := none }

/-- A concrete enabled feed configuration. -/
def cfgA : FeedConfig :=
  { name := "Feed A", url := "https://example.com/feed.xml",
    category := "Tech News", enabled := true }

/-- A concrete fetch outcome: the one configured feed succeeds with two
items. -/
def fetchTwo : FeedConfig → FetchResult := fun cfg =>
  { feedName := cfg.name, success := true, items := [itemA, itemB], error := none }

/-- A concrete throw-free run over `cfgA` with `maxTotalItems = 1`, so that
the two fetched items survive dedup but only one is published. -/
def envC1 : MainEnv :=
  { configOk := true, feeds := [cfgA], maxItemsPerFeed := 10, maxTotalItems := 1,
    retentionDays := 30, dbOpenOk := true, db0 := [], nowMs := 1000000,
    fetch := fetchTwo, feedStatsFailAt := none, renderOk := true, markOk := true,
    genStatsOk := true }

/-- The same run, except that the first `recordFeedStats` write throws. -/
def envStatsFail : MainEnv :=
  { envC1 with feedStatsFailAt := some 0 }

/-- The same run, except that the `recordGeneration` write throws. -/
def envGenFail : MainEnv :=
  { envC1 with genStatsOk := false }

/-- A concrete stored row old enough to be evicted. -/
def rowOld : ProcessedRow :=
  { url := "https://example.com/old", feed_name := "Feed A", processed_at := 0,
    title := none }

/-- A concrete stored row recent enough to survive eviction. -/
def rowNew : ProcessedRow :=
  { url := "https://example.com/new", feed_name := "Feed A",
    processed_at := 40 * 86400000, title := none }

/-- A concrete marking payload for `itemA`. -/
def markItemA : ItemToMark :=
  { url := "https://example.com/a", feedName := "Feed A", title := some "Alpha" }

/-- A concrete marking payload for `itemB`. -/
def markItemB : ItemToMark :=
  { url := "https://example.com/b", feedName := "Feed A", title := some "Beta" }

/-- A concrete fetch outcome with no items, for witnesses. -/
def wFetch : FeedConfig → FetchResult := fun cfg =>
  { feedName := cfg.name, success := true, items := [], error := none }

/-- A concrete instantiation of the fetcher's external collaborators, for
witnesses. -/
def fetchEnvW : FetchEnv :=
  { md5hex := fun s => s, parseDate := fun _ => 0, sanitize := fun s => s, nowMs := 0 }

lemma pubDateDesc_trans (a b c : FeedItem) (hab : pubDateDesc a b = true)
    (hbc : pubDateDesc b c = true) : pubDateDesc a c = true := by
  simp only [pubDateDesc, decide_eq_true_eq] at hab hbc ⊢
  exact le_trans hbc hab

lemma pubDateDesc_total (a b : FeedItem) : (pubDateDesc a b || pubDateDesc b a) = true := by
  simp only [pubDateDesc, Bool.or_eq_true, decide_eq_true_eq]
  exact le_total b.pubDate a.pubDate

lemma sortByDateDesc_pairwise (l : List FeedItem) :
    List.Pairwise (fun a b => b.pubDate ≤ a.pubDate) (sortByDateDesc l) := by
  have h := List.sorted_mergeSort pubDateDesc_trans pubDateDesc_total l
  exact h.imp (fun hab => by simpa [pubDateDesc] using hab)

lemma sortByDateDesc_length (l : List FeedItem) :
    (sortByDateDesc l).length = l.length :=
  List.length_mergeSort l

lemma mem_sortByDateDesc {a : FeedItem} {l : List FeedItem} :
    a ∈ sortByDateDesc l ↔ a ∈ l :=
  List.mem_mergeSort

/-- C7: for every input and every `totalCap`, the final item list has length
at most `totalCap`, and a `totalCap` of zero yields an empty output (the
pipeline is a total function, so zero is handled, not rejected). -/
theorem selection_totalCap_correct (allItems : List FeedItem)
    (processedUrls : List String) (cap : Nat) :
    (selectionFinalItems allItems processedUrls cap).length ≤ cap ∧
      selectionFinalItems allItems processedUrls 0 = [] := by
  constructor
  · simp [selectionFinalItems, List.length_take]
  · simp [selectionFinalItems]

/-- C8: in the final item list, every adjacent pair (indeed every pair, which
is stronger) is non-increasing by publication time: the earlier item's
`publishedAt` is greater than or equal to the later item's. -/
theorem selection_ordering_invariant (allItems : List FeedItem)
    (processedUrls : List String) (cap : Nat) :
    List.Pairwise (fun a b => b.pubDate ≤ a.pubDate)
      (selectionFinalItems allItems processedUrls cap) :=
  List.Pairwise.sublist (List.take_sublist _ _)
    (sortByDateDesc_pairwise (selectionNewItems allItems processedUrls))

lemma contains_iff_mem (l : List String) (a : String) : l.contains a = true ↔ a ∈ l :=
  List.elem_iff

lemma selectionNewItems_AB : selectionNewItems [itemA, itemB] [] = [itemA, itemB] := by
  decide

lemma sortAB : sortByDateDesc [itemA, itemB] = [itemA, itemB] :=
  List.mergeSort_of_sorted (by decide)

lemma finalAB (cap : Nat) :
    selectionFinalItems [itemA, itemB] [] cap = List.take cap [itemA, itemB] := by
  unfold selectionFinalItems
  rw [selectionNewItems_AB, sortAB]

lemma fetchAll_envC1 :
    fetchAllFeeds fetchTwo [cfgA] 10 =
      ([{ feedName := "Feed A", success := true, items := [itemA, itemB], error := none }],
        [itemA, itemB]) := by
  simp [fetchAllFeeds, cfgA, fetchTwo, capFeedItems, sortAB]

/-- C1 is false of the code: in the concrete run `envC1` the candidate set
is `[itemA, itemB]`, the seen set is empty, both items survive dedup
(pre-truncation survivor count 2), yet the `generation_history` record
persists `newItems = 1`, the post-truncation length, not the
pre-truncation survivor count. -/
theorem generation_newCount_cex :
    (fetchAllFeeds envC1.fetch envC1.feeds envC1.maxItemsPerFeed).2 = [itemA, itemB] ∧
      getProcessedUrls
        (cleanOldEntries envC1.db0 (evictionCutoff envC1.nowMs envC1.retentionDays)).1 = [] ∧
      (selectionNewItems [itemA, itemB] []).length = 2 ∧
      (mainRun envC1).generationRecorded.map GenerationStats.newItems = some 1 ∧
      (mainRun envC1).generationRecorded.map GenerationStats.newItems ≠
        some (selectionNewItems [itemA, itemB] []).length := by
  have hrec : (mainRun envC1).generationRecorded.map GenerationStats.newItems = some 1 := by
    simp [mainRun, envC1, fetchAll_envC1, statsFailIndex, cleanOldEntries, getProcessedUrls,
      finalAB, mainStats, selectionNewItems_AB, List.length_take]
  refine ⟨?_, by decide, by decide, hrec, ?_⟩
  · show (fetchAllFeeds fetchTwo [cfgA] 10).2 = [itemA, itemB]
    rw [fetchAll_envC1]
  · rw [hrec, selectionNewItems_AB]
    decide

/-- C1 (amended): the `newItems` count persisted by `recordGeneration`
equals the length of the post-truncation `finalItems` list, that is, the
minimum of `totalCap` and the pre-truncation survivor count — not the
pre-truncation survivor count itself. -/
theorem generation_newCount_posttruncation (results : List FetchResult)
    (allItems : List FeedItem) (processedUrls : List String) (cap : Nat) :
    (mainStats results allItems processedUrls cap).newItems
        = min cap (selectionNewItems allItems processedUrls).length ∧
      (mainStats results allItems processedUrls cap).newItems
        = (selectionFinalItems allItems processedUrls cap).length := by
  constructor
  · simp [mainStats, selectionFinalItems, List.length_take, sortByDateDesc_length]
  · rfl

/-- C2 is false of the code: with `allItems = [itemA, itemB]`, an empty
seen set and `totalCap = 1`, only `itemA` is published and recorded, so
running the pipeline again over the same `allItems` still yields `itemB`
as a new item — not zero new items. -/
theorem dedup_idempotence_cex :
    selectionNewItems [itemA, itemB] (seenAfterRun [itemA, itemB] [] 1) = [itemB] ∧
      [itemB] ≠ ([] : List FeedItem) := by
  have h : seenAfterRun [itemA, itemB] [] 1 = [itemA.link] := by
    simp [seenAfterRun, finalAB]
  rw [h]
  exact ⟨by decide, by decide⟩

/-- C2 (amended): the second run yields zero new items provided the first
run's pre-truncation survivor count is at most `totalCap` (so that every
survivor was actually published and recorded).  The counterexample above
shows the hypothesis is needed. -/
theorem dedup_idempotent_of_cap_ge (allItems : List FeedItem)
    (processedUrls : List String) (cap : Nat)
    (h : (selectionNewItems allItems processedUrls).length ≤ cap) :
    selectionNewItems allItems (seenAfterRun allItems processedUrls cap) = [] := by
  rw [selectionNewItems, List.filter_eq_nil_iff]
  intro item hmem
  simp only [Bool.not_eq_true', Bool.not_eq_false]
  rw [contains_iff_mem]
  rw [seenAfterRun, List.mem_append]
  by_cases hic : processedUrls.contains item.link = true
  · exact Or.inl ((contains_iff_mem _ _).mp hic)
  · refine Or.inr ?_
    have hsurv : item ∈ selectionNewItems allItems processedUrls := by
      rw [selectionNewItems, List.mem_filter]
      refine ⟨hmem, ?_⟩
      rw [Bool.not_eq_true']
      exact Bool.eq_false_iff.mpr hic
    have hfin : item ∈ selectionFinalItems allItems processedUrls cap := by
      rw [selectionFinalItems,
        List.take_of_length_le (by rw [sortByDateDesc_length]; exact h)]
      exact mem_sortByDateDesc.mpr hsurv
    exact List.mem_map_of_mem _ hfin

/-- Witness for the amended C2 at a concrete input: with `totalCap = 2` the
survivor count (2) is within the cap, and the second run is empty. -/
theorem dedup_idempotent_witness :
    (selectionNewItems [itemA, itemB] []).length ≤ 2 ∧
      selectionNewItems [itemA, itemB] (seenAfterRun [itemA, itemB] [] 2) = [] :=
  ⟨by decide, dedup_idempotent_of_cap_ge [itemA, itemB] [] 2 (by decide)⟩

/-- C3 is false of the code: in the concrete run `envStatsFail` the first
`recordFeedStats` write throws, and the run exits non-zero without ever
rendering — the error is not swallowed. -/
theorem stats_error_swallowed_cex :
    (mainRun envStatsFail).exitCode ≠ 0 ∧ (mainRun envStatsFail).rendered = false := by
  decide

/-- C3 (amended): a statistics write error propagates to `main`'s single
`try`/`catch` and the process exits 1.  A `recordFeedStats` failure happens
before `writeNewsletter`, so nothing is rendered; a `recordGeneration`
failure happens after rendering and after `markMultipleAsProcessed`, but
the run still exits 1 and no `generation_history` record is written. -/
theorem stats_write_error_propagates (env : MainEnv)
    (hc : env.configOk = true) (hd : env.dbOpenOk = true) :
    (∀ i, env.feedStatsFailAt = some i →
        i < (env.feeds.filter (fun f => f.enabled)).length →
        (mainRun env).exitCode = 1 ∧ (mainRun env).rendered = false) ∧
      (env.feedStatsFailAt = none → env.renderOk = true → env.markOk = true →
        env.genStatsOk = false →
        (mainRun env).exitCode = 1 ∧ (mainRun env).rendered = true ∧
          (mainRun env).generationRecorded = none) := by
  constructor
  · intro i hfail hi
    simp [mainRun, hc, hd, hfail, statsFailIndex, fetchAllFeeds, feedStatRows,
      List.length_map, hi]
  · intro hnone hr hm hg
    simp [mainRun, hc, hd, hnone, hr, hm, hg, statsFailIndex]

/-- Witness for the amended C3: the concrete run `envStatsFail` has a
failing first `recordFeedStats` write and indeed exits 1 without
rendering. -/
theorem stats_write_error_witness :
    envStatsFail.configOk = true ∧ envStatsFail.feedStatsFailAt = some 0 ∧
      ((mainRun envStatsFail).exitCode = 1 ∧ (mainRun envStatsFail).rendered = false) :=
  ⟨rfl, rfl, (stats_write_error_propagates envStatsFail rfl rfl).1 0 rfl (by decide)⟩

lemma length_filter_bool_split {α : Type} (p : α → Bool) (l : List α) :
    (l.filter p).length + (l.filter (fun a => !p a)).length = l.length := by
  induction l with
  | nil => simp
  | cons a l ih =>
    cases h : p a <;> simp [List.filter_cons, h, ← ih] <;> omega

/-- C5: evicting with retention `d` at time `now` removes exactly the rows
whose `processed_at` precedes `now - d` days (the returned count plus the
remaining rows account for the whole table), afterwards no remaining row is
older than the cutoff, every older row is gone, and no younger row was
removed. -/
theorem cleanOldEntries_eviction_correct (rows : List ProcessedRow) (nowMs d : Int) :
    (cleanOldEntries rows (evictionCutoff nowMs d)).2 +
        (cleanOldEntries rows (evictionCutoff nowMs d)).1.length = rows.length ∧
      (∀ r ∈ (cleanOldEntries rows (evictionCutoff nowMs d)).1,
        ¬ r.processed_at < evictionCutoff nowMs d) ∧
      (∀ r ∈ rows, r.processed_at < evictionCutoff nowMs d →
        r ∉ (cleanOldEntries rows (evictionCutoff nowMs d)).1) ∧
      (∀ r ∈ rows, ¬ r.processed_at < evictionCutoff nowMs d →
        r ∈ (cleanOldEntries rows (evictionCutoff nowMs d)).1) := by
  refine ⟨?_, ?_, ?_, ?_⟩
  · exact length_filter_bool_split (oldRow (evictionCutoff nowMs d)) rows
  · intro r hr
    have := (List.mem_filter.mp hr).2
    simp only [Bool.not_eq_true', oldRow, decide_eq_false_iff_not] at this
    exact this
  · intro r _ hold hr
    have := (List.mem_filter.mp hr).2
    simp only [Bool.not_eq_true', oldRow, decide_eq_false_iff_not] at this
    exact this hold
  · intro r hr hyoung
    exact List.mem_filter.mpr ⟨hr, by simp [oldRow, hyoung]⟩

/-- Witness for C5 at a concrete store: with retention 30 days at day 45,
the row first seen at day 0 is removed while the row from day 40
remains, and the returned count is 1. -/
theorem cleanOldEntries_witness :
    rowOld.processed_at < evictionCutoff (45 * 86400000) 30 ∧
      rowOld ∉ (cleanOldEntries [rowOld, rowNew] (evictionCutoff (45 * 86400000) 30)).1 :=
  ⟨by decide,
    (cleanOldEntries_eviction_correct [rowOld, rowNew] (45 * 86400000) 30).2.2.1 rowOld
      (by decide) (by decide)⟩

lemma hasUrl_iff_mem_map (rows : List ProcessedRow) (u : String) :
    hasUrl rows u = true ↔ u ∈ rows.map (fun r => r.url) := by
  unfold hasUrl
  rw [List.any_eq_true]
  constructor
  · rintro ⟨r, hr, hbeq⟩
    exact List.mem_map.mpr ⟨r, hr, by simpa using hbeq⟩
  · intro hm
    obtain ⟨r, hr, he⟩ := List.mem_map.mp hm
    exact ⟨r, hr, by simp [he]⟩

lemma hasUrl_insertOrIgnore (rows : List ProcessedRow) (r : ProcessedRow) (u : String) :
    hasUrl (insertOrIgnore rows r) u = (hasUrl rows u || r.url == u) := by
  unfold insertOrIgnore
  by_cases h : hasUrl rows r.url = true
  · rw [if_pos h]
    by_cases hu : r.url = u
    · subst hu
      simp [h]
    · have hb : (r.url == u) = false := by simp [hu]
      simp [hb]
  · rw [if_neg h]
    unfold hasUrl
    rw [List.any_append]
    simp

lemma hasUrl_insertOrIgnore_of (rows : List ProcessedRow) (r : ProcessedRow) (u : String)
    (h : hasUrl rows u = true) : hasUrl (insertOrIgnore rows r) u = true := by
  rw [hasUrl_insertOrIgnore, h, Bool.true_or]

lemma markMultiple_cons (rows : List ProcessedRow) (t : Int) (it : ItemToMark)
    (its : List ItemToMark) :
    markMultipleAsProcessed rows t (it :: its) =
      markMultipleAsProcessed
        (insertOrIgnore rows
          { url := it.url, feed_name := it.feedName, processed_at := t,
            title := jsOrNull it.title }) t its :=
  rfl

lemma hasUrl_markMultiple (rows : List ProcessedRow) (t : Int) (items : List ItemToMark)
    (u : String) :
    hasUrl (markMultipleAsProcessed rows t items) u =
      (hasUrl rows u || items.any (fun it => it.url == u)) := by
  induction items generalizing rows with
  | nil => simp [markMultipleAsProcessed]
  | cons it its ih =>
    rw [markMultiple_cons, ih, hasUrl_insertOrIgnore]
    simp [Bool.or_assoc]

lemma urlsNodup_insertOrIgnore (rows : List ProcessedRow) (r : ProcessedRow)
    (h : UrlsNodup rows) : UrlsNodup (insertOrIgnore rows r) := by
  unfold insertOrIgnore
  by_cases hc : hasUrl rows r.url = true
  · rw [if_pos hc]
    exact h
  · rw [if_neg hc]
    unfold UrlsNodup at h ⊢
    rw [List.map_append, List.nodup_append]
    refine ⟨h, by simp, ?_⟩
    intro a ha hb
    simp only [List.map_cons, List.map_nil, List.mem_singleton] at hb
    subst hb
    exact hc ((hasUrl_iff_mem_map rows _).mpr ha)

lemma urlsNodup_markMultiple (rows : List ProcessedRow) (t : Int)
    (items : List ItemToMark) (h : UrlsNodup rows) :
    UrlsNodup (markMultipleAsProcessed rows t items) := by
  induction items generalizing rows with
  | nil => exact h
  | cons it its ih =>
    rw [markMultiple_cons]
    exact ih _ (urlsNodup_insertOrIgnore rows _ h)

lemma filter_url_insertOrIgnore (rows : List ProcessedRow) (r : ProcessedRow) (u : String)
    (h : hasUrl rows u = true) :
    (insertOrIgnore rows r).filter (fun x => x.url == u) =
      rows.filter (fun x => x.url == u) := by
  unfold insertOrIgnore
  by_cases hc : hasUrl rows r.url = true
  · rw [if_pos hc]
  · rw [if_neg hc, List.filter_append]
    have hb : (r.url == u) = false := by
      refine Bool.eq_false_iff.mpr fun he => ?_
      have heq : r.url = u := by simpa using he
      exact hc (heq ▸ h)
    simp [hb]

lemma filter_url_markMultiple (rows : List ProcessedRow) (t : Int)
    (items : List ItemToMark) (u : String) (h : hasUrl rows u = true) :
    (markMultipleAsProcessed rows t items).filter (fun x => x.url == u) =
      rows.filter (fun x => x.url == u) := by
  induction items generalizing rows with
  | nil => rfl
  | cons it its ih =>
    rw [markMultiple_cons, ih _ (hasUrl_insertOrIgnore_of rows _ u h)]
    exact filter_url_insertOrIgnore rows _ u h

lemma filter_url_length_one (rows : List ProcessedRow) (u : String)
    (hn : UrlsNodup rows) (h : hasUrl rows u = true) :
    (rows.filter (fun x => x.url == u)).length = 1 := by
  induction rows with
  | nil => simp [hasUrl] at h
  | cons r rs ih =>
    unfold UrlsNodup at hn
    rw [List.map_cons, List.nodup_cons] at hn
    by_cases he : r.url = u
    · subst he
      rw [List.filter_cons]
      have hnil : rs.filter (fun x => x.url == r.url) = [] := by
        rw [List.filter_eq_nil_iff]
        intro x hx hbeq
        have hxu : x.url = r.url := by simpa using hbeq
        exact hn.1 (hxu ▸ List.mem_map_of_mem _ hx)
      simp [hnil]
    · have hb : (r.url == u) = false := by simp [he]
      rw [List.filter_cons, hb]
      simp only [Bool.false_eq_true, if_neg]
      refine ih hn.2 ?_
      unfold hasUrl at h ⊢
      rw [List.any_cons, hb, Bool.false_or] at h
      exact h

/-- C4: the bulk insert is idempotent: starting from a store satisfying the
primary-key invariant, after two overlapping calls the invariant still
holds, every url from either call (or already present) has exactly one row,
the rows of urls already present before the second call are untouched by it
(first-insertion metadata preserved), and marking a single already-present
url changes nothing. -/
theorem markMultiple_idempotent_bulk_insert (rows : List ProcessedRow) (t1 t2 : Int)
    (items1 items2 : List ItemToMark) (hinv : UrlsNodup rows) :
    UrlsNodup (markMultipleAsProcessed (markMultipleAsProcessed rows t1 items1) t2 items2) ∧
      (∀ u : String,
        (items1.any (fun it => it.url == u) = true ∨
          items2.any (fun it => it.url == u) = true ∨ hasUrl rows u = true) →
        ((markMultipleAsProcessed (markMultipleAsProcessed rows t1 items1) t2
              items2).filter (fun x => x.url == u)).length = 1) ∧
      (∀ u : String, hasUrl (markMultipleAsProcessed rows t1 items1) u = true →
        (markMultipleAsProcessed (markMultipleAsProcessed rows t1 items1) t2
            items2).filter (fun x => x.url == u) =
          (markMultipleAsProcessed rows t1 items1).filter (fun x => x.url == u)) ∧
      (∀ (u fn : String) (ttl : Option String) (t : Int), hasUrl rows u = true →
        markMultipleAsProcessed rows t [{ url := u, feedName := fn, title := ttl }] = rows) := by
  have hn2 : UrlsNodup (markMultipleAsProcessed (markMultipleAsProcessed rows t1 items1)
      t2 items2) :=
    urlsNodup_markMultiple _ t2 items2 (urlsNodup_markMultiple rows t1 items1 hinv)
  refine ⟨hn2, ?_, ?_, ?_⟩
  · intro u hu
    refine filter_url_length_one _ u hn2 ?_
    rw [hasUrl_markMultiple, hasUrl_markMultiple]
    rcases hu with h1 | h2 | h0
    · rw [h1]
      simp
    · rw [h2]
      simp
    · rw [h0]
      simp
  · intro u hu
    exact filter_url_markMultiple _ t2 items2 u hu
  · intro u fn ttl t h
    simp [markMultipleAsProcessed, insertOrIgnore, h]

/-- Witness for C4 at a concrete store: two overlapping calls starting from
the empty table leave exactly one row for the shared url. -/
theorem markMultiple_witness :
    UrlsNodup ([] : List ProcessedRow) ∧
      ((markMultipleAsProcessed (markMultipleAsProcessed [] 10 [markItemA, markItemB]) 20
          [markItemB]).filter (fun x => x.url == "https://example.com/b")).length = 1 :=
  ⟨by simp [UrlsNodup],
    (markMultiple_idempotent_bulk_insert [] 10 20 [markItemA, markItemB] [markItemB]
        (by simp [UrlsNodup])).2.1 "https://example.com/b" (Or.inl (by decide))⟩

lemma capFeedItems_length_le (items : List FeedItem) (k : Nat) :
    (capFeedItems items k).length ≤ k := by
  simp [capFeedItems, List.length_take]

lemma foldl_contrib_eq (k : Nat) (init : List FeedItem) (results : List FetchResult) :
    results.foldl (fun acc r => if r.success then acc ++ capFeedItems r.items k else acc) init
      = init ++
        results.foldl (fun acc r => if r.success then acc ++ capFeedItems r.items k else acc)
          [] := by
  induction results generalizing init with
  | nil => simp
  | cons r rs ih =>
    simp only [List.foldl_cons]
    by_cases h : r.success = true
    · rw [if_pos h, if_pos h, ih (init ++ capFeedItems r.items k),
        ih (([] : List FeedItem) ++ capFeedItems r.items k)]
      simp [List.append_assoc]
    · rw [if_neg h, if_neg h]
      exact ih init

lemma mem_allItems (k : Nat) (results : List FetchResult) (it : FeedItem)
    (h : it ∈ results.foldl
      (fun acc r => if r.success then acc ++ capFeedItems r.items k else acc) []) :
    ∃ r ∈ results, it ∈ r.items := by
  induction results with
  | nil => simp at h
  | cons r rs ih =>
    rw [List.foldl_cons, foldl_contrib_eq] at h
    rcases List.mem_append.mp h with h1 | h2
    · by_cases hs : r.success = true
      · rw [if_pos hs] at h1
        simp only [List.nil_append] at h1
        refine ⟨r, List.mem_cons_self r rs, ?_⟩
        have := List.take_subset _ _ h1
        exact mem_sortByDateDesc.mp this
      · rw [if_neg hs] at h1
        simp at h1
    · obtain ⟨r', hr', hit⟩ := ih h2
      exact ⟨r', List.mem_cons_of_mem r hr', hit⟩

lemma allItems_filter_name_le (k : Nat) (s : String) (results : List FetchResult)
    (hits : ∀ r ∈ results, ∀ it ∈ r.items, it.feedName = r.feedName)
    (hnodup : (results.map (fun r => r.feedName)).Nodup) :
    ((results.foldl (fun acc r => if r.success then acc ++ capFeedItems r.items k else acc)
        []).filter (fun it => it.feedName == s)).length ≤ k := by
  induction results with
  | nil => simp
  | cons r rs ih =>
    rw [List.foldl_cons, foldl_contrib_eq, List.filter_append, List.length_append]
    rw [List.map_cons, List.nodup_cons] at hnodup
    have hcontrib_items : ∀ it ∈ (if r.success = true then
        ([] : List FeedItem) ++ capFeedItems r.items k else []), it.feedName = r.feedName := by
      intro it hit
      by_cases hs : r.success = true
      · rw [if_pos hs] at hit
        simp only [List.nil_append] at hit
        exact hits r (List.mem_cons_self r rs) it
          (mem_sortByDateDesc.mp (List.take_subset _ _ hit))
      · rw [if_neg hs] at hit
        simp at hit
    by_cases hname : r.feedName = s
    · have hrest : (rs.foldl
          (fun acc r => if r.success then acc ++ capFeedItems r.items k else acc)
          []).filter (fun it => it.feedName == s) = [] := by
        rw [List.filter_eq_nil_iff]
        intro it hit hbeq
        obtain ⟨r', hr', hit'⟩ := mem_allItems k rs it hit
        have h1 : it.feedName = r'.feedName := hits r' (List.mem_cons_of_mem r hr') it hit'
        have h2 : it.feedName = s := by simpa using hbeq
        exact hnodup.1 (by rw [hname, ← h2, h1]; exact List.mem_map_of_mem _ hr')
      rw [hrest]
      simp only [List.length_nil, Nat.add_zero]
      calc ((if r.success = true then ([] : List FeedItem) ++ capFeedItems r.items k
              else []).filter (fun it => it.feedName == s)).length
          ≤ (if r.success = true then ([] : List FeedItem) ++ capFeedItems r.items k
              else []).length := List.length_filter_le _ _
        _ ≤ k := by
            by_cases hs : r.success = true
            · rw [if_pos hs]
              simpa using capFeedItems_length_le r.items k
            · rw [if_neg hs]
              simp
    · have hcontrib : (if r.success = true then ([] : List FeedItem) ++ capFeedItems r.items k
          else []).filter (fun it => it.feedName == s) = [] := by
        rw [List.filter_eq_nil_iff]
        intro it hit hbeq
        have h2 : it.feedName = s := by simpa using hbeq
        exact hname ((hcontrib_items it hit) ▸ h2)
      rw [hcontrib]
      simp only [List.length_nil, Nat.zero_add]
      exact ih (fun r' hr' => hits r' (List.mem_cons_of_mem r hr')) hnodup.2

/-- C6: per-feed cap correctness.  First, with distinctly named enabled
feeds whose fetch results carry their own source name on every item, no
source name accounts for more than `k` items of the pre-dedup candidate
set.  Second, for every source's current item list, the capped
contribution has at most `k` items, is ordered by publication time
descending, every kept item is at least as recent as every dropped item,
and items with equal timestamps keep their original fetch order in the
sorted list (stability). -/
theorem perFeedCap_correct (fetch : FeedConfig → FetchResult) (feeds : List FeedConfig)
    (k : Nat)
    (hname : ∀ cfg, (fetch cfg).feedName = cfg.name)
    (hitems : ∀ cfg, ∀ it ∈ (fetch cfg).items, it.feedName = cfg.name)
    (hnodup : ((feeds.filter (fun f => f.enabled)).map (fun f => f.name)).Nodup) :
    (∀ s : String,
      ((fetchAllFeeds fetch feeds k).2.filter (fun it => it.feedName == s)).length ≤ k) ∧
      (∀ items : List FeedItem,
        (capFeedItems items k).length ≤ k ∧
          List.Pairwise (fun a b => b.pubDate ≤ a.pubDate) (capFeedItems items k) ∧
          (∀ x ∈ capFeedItems items k, ∀ y ∈ (sortByDateDesc items).drop k,
            y.pubDate ≤ x.pubDate) ∧
          (∀ a b : FeedItem, a.pubDate = b.pubDate → List.Sublist [a, b] items →
            List.Sublist [a, b] (sortByDateDesc items))) := by
  constructor
  · intro s
    apply allItems_filter_name_le
    · intro r hr it hit
      obtain ⟨cfg, _, rfl⟩ := List.mem_map.mp hr
      rw [hname cfg]
      exact hitems cfg it hit
    · rw [List.map_map]
      have : (fun r => FetchResult.feedName r) ∘ fetch = fun cfg => (fetch cfg).feedName :=
        rfl
      rw [this]
      have heq : (feeds.filter (fun f => f.enabled)).map (fun cfg => (fetch cfg).feedName)
          = (feeds.filter (fun f => f.enabled)).map (fun f => f.name) :=
        List.map_congr_left (fun cfg _ => hname cfg)
      rw [heq]
      exact hnodup
  · intro items
    refine ⟨capFeedItems_length_le items k, ?_, ?_, ?_⟩
    · exact List.Pairwise.sublist (List.take_sublist _ _) (sortByDateDesc_pairwise items)
    · intro x hx y hy
      have hp := sortByDateDesc_pairwise items
      rw [← List.take_append_drop k (sortByDateDesc items)] at hp
      exact (List.pairwise_append.mp hp).2.2 x hx y hy
    · intro a b heq hsub
      refine List.pair_sublist_mergeSort pubDateDesc_trans pubDateDesc_total ?_ hsub
      simp only [pubDateDesc, decide_eq_true_eq]
      exact le_of_eq heq.symm

/-- Witness for C6 at a concrete configuration: one enabled feed whose
fetch yields no items; the candidate set carries at most 2 items of the
feed's name. -/
theorem perFeedCap_witness :
    (∀ cfg, (wFetch cfg).feedName = cfg.name) ∧
      ((fetchAllFeeds wFetch [cfgA] 2).2.filter
        (fun it => it.feedName == "Feed A")).length ≤ 2 :=
  ⟨fun _ => rfl,
    (perFeedCap_correct wFetch [cfgA] 2 (fun _ => rfl)
        (fun cfg it h => absurd h (List.not_mem_nil it)) (by decide)).1 "Feed A"⟩

/-- C9: every fetch or parse error is absorbed inside `fetchFeed`: an error
outcome with message `msg` yields exactly the failure result with
`success = false` and an empty item list (the function is total, so no
exception escapes), and the `error` field is present if and only if the
fetch failed. -/
theorem fetchFeed_failure_isolation (env : FetchEnv) (cfg : FeedConfig)
    (outcome : Except String RawFeed) :
    (∀ msg, outcome = Except.error msg →
      fetchFeed env cfg outcome =
        { feedName := cfg.name, success := false, items := [], error := some msg }) ∧
      ((fetchFeed env cfg outcome).error.isSome ↔
        (fetchFeed env cfg outcome).success = false) := by
  constructor
  · intro msg h
    subst h
    rfl
  · cases outcome <;> simp [fetchFeed]

/-- Witness for C9 at a concrete failing fetch. -/
theorem fetchFeed_failure_witness :
    fetchFeed fetchEnvW cfgA (Except.error "timeout") =
      { feedName := "Feed A", success := false, items := [], error := some "timeout" } :=
  (fetchFeed_failure_isolation fetchEnvW cfgA (Except.error "timeout")).1 "timeout" rfl

lemma mem_replaceChar {a c : Char} {rep l : List Char} (h : a ∈ replaceChar c rep l) :
    a ∈ rep ∨ (a ∈ l ∧ a ≠ c) := by
  induction l with
  | nil => simp [replaceChar] at h
  | cons x xs ih =>
    simp only [replaceChar] at h
    rcases List.mem_append.mp h with h1 | h2
    · by_cases hx : x = c
      · rw [if_pos hx] at h1
        exact Or.inl h1
      · rw [if_neg hx] at h1
        simp only [List.mem_singleton] at h1
        subst h1
        exact Or.inr ⟨List.mem_cons_self _ _, hx⟩
    · rcases ih h2 with h3 | ⟨h4, h5⟩
      · exact Or.inl h3
      · exact Or.inr ⟨List.mem_cons_of_mem _ h4, h5⟩

lemma not_mem_replaceChar_self {c : Char} {rep : List Char} (h : c ∉ rep)
    (l : List Char) : c ∉ replaceChar c rep l := fun hm => by
  rcases mem_replaceChar hm with h1 | ⟨_, h2⟩
  · exact h h1
  · exact h2 rfl

lemma not_mem_replaceChar_of {a c : Char} {rep l : List Char} (ha : a ∉ rep)
    (hl : a ∉ l) : a ∉ replaceChar c rep l := fun hm => by
  rcases mem_replaceChar hm with h1 | ⟨h2, _⟩
  · exact ha h1
  · exact hl h2

/-- C10: for every input string, the output of `escapeHtml` contains no raw
left angle bracket, right angle bracket, double quote (`dquoteChar`) or
single quote (`squoteChar`): each of the four is rewritten at its own
stage, the ampersand stage runs first, and no later stage's entity text
reintroduces any of them.  Every interpolated field of the rendered HTML
passes through `escapeHtml`, so this makes such fields free of those raw
characters. -/
theorem escapeHtml_no_raw_specials (s : String) :
    '<' ∉ (escapeHtml s).data ∧ '>' ∉ (escapeHtml s).data ∧
      dquoteChar ∉ (escapeHtml s).data ∧ squoteChar ∉ (escapeHtml s).data := by
  have hdata : (escapeHtml s).data = escapeHtmlData s.data := rfl
  rw [hdata]
  unfold escapeHtmlData
  refine ⟨?_, ?_, ?_, ?_⟩
  · apply not_mem_replaceChar_of (by decide)
    apply not_mem_replaceChar_of (by decide)
    apply not_mem_replaceChar_of (by decide)
    exact not_mem_replaceChar_self (by decide) _
  · apply not_mem_replaceChar_of (by decide)
    apply not_mem_replaceChar_of (by decide)
    exact not_mem_replaceChar_self (by decide) _
  · apply not_mem_replaceChar_of (by decide)
    exact not_mem_replaceChar_self (by decide) _
  · exact not_mem_replaceChar_self (by decide) _

/-- Witness for C10 at a concrete string containing all five special
characters. -/
theorem escapeHtml_witness : '<' ∉ (escapeHtml "a<b>&c").data :=
  (escapeHtml_no_raw_specials "a<b>&c").1

end RssNewsletter
